import Mathlib

set_option maxRecDepth 8000

/-!
# Verification of the PF 2026 leaderboard server

Shallow embedding of the Express server in `api`-style source
(the anti-cheat variant): the score store (GET /scores, POST /scores),
the in-memory session registry (the `gameSessions` Map), the periodic
sweep, and the anti-cheat validation inside the submit handler.

JavaScript particulars that matter and are modelled explicitly:
* `parseInt` may return `NaN`; `NaN < 3000` and `NaN > 600000` are both
  `false`, so a `NaN` time passes the bound check.
* `JSON.stringify(NaN)` is `null`, so a `NaN` time persists as `null`;
  in later arithmetic `null` coerces to `0`.
* `Array.prototype.sort`: a comparator result of `NaN` is treated as `+0`
  (ES SortCompare), and the sort is stable; we model it with a stable
  insertion sort driven by the boolean "comparator result is <= 0".
* `JSON.parse(text) || []` keeps any truthy parsed value; a falsy parsed
  value (`null`, `false`, `0`, `""`) is replaced by `[]`.
* truthiness tests: `if (!name || !cinema || !time)`, `if (token)`.
-/

namespace PF

/-- JS `String.prototype.trim()`: strip leading and trailing whitespace. -/
def jsTrim (s : String) : String :=
  ⟨((s.data.dropWhile Char.isWhitespace).reverse.dropWhile Char.isWhitespace).reverse⟩

/-- JS `String.prototype.slice(0, n)`: the first `n` units of the string. -/
def jsSlice (s : String) (n : Nat) : String := ⟨s.data.take n⟩

/-- JavaScript runtime value of the `time` field of a score entry:
an (integer) number, `null` (what `NaN` becomes after a JSON round trip),
or `NaN` itself (fresh from `parseInt`). -/
inductive JTime where
  | num (n : Int)
  | null
  | nan
deriving DecidableEq

/-- Numeric coercion used by JS arithmetic on non-NaN values: `null` is `0`. -/
def JTime.toNum : JTime → Int
  | .num n => n
  | .null => 0
  | .nan => 0

/-- Subtraction `a - b` on JS time values; `none` models a `NaN` result. -/
def jsub : JTime → JTime → Option Int
  | .nan, _ => none
  | _, .nan => none
  | a, b => some (a.toNum - b.toNum)

/-- JS `x < c` for a time value (`NaN < c` is `false`, `null` coerces to `0`). -/
def JTime.ltInt : JTime → Int → Bool
  | .num n, c => decide (n < c)
  | .null, c => decide ((0 : Int) < c)
  | .nan, _ => false

/-- JS `x > c` for a time value (`NaN > c` is `false`, `null` coerces to `0`). -/
def JTime.gtInt : JTime → Int → Bool
  | .num n, c => decide (c < n)
  | .null, c => decide (c < (0 : Int))
  | .nan, _ => false

/-- JS `x <= c` for a time value (`NaN <= c` is `false`). -/
def JTime.leInt : JTime → Int → Bool
  | .num n, c => decide (n ≤ c)
  | .null, c => decide ((0 : Int) ≤ c)
  | .nan, _ => false

/-- JS value supplied in the request body's `mobile` field. -/
inductive JVal where
  | jbool (b : Bool)
  | jstr (s : String)
  | jnum (n : Int)
  | jundef
  | jnull
deriving DecidableEq

/-- Strict equality `req.body.mobile === true`: only the boolean `true`. -/
def mobileFlag : JVal → Bool
  | .jbool true => true
  | _ => false

/-- One persisted leaderboard record (the object built in the submit
handler); `date` is the server timestamp (`Date.now()` at insertion). -/
structure Score where
  id : String
  name : String
  cinema : String
  email : Option String
  time : JTime
  date : Int
  verified : Bool
  mobile : Bool
deriving DecidableEq

/-- The comparator `(a, b) => a.time - b.time` as used by `sort`:
ES `SortCompare` treats a `NaN` comparator result as `+0`. -/
def sortCompare (a b : Score) : Int := (jsub a.time b.time).getD 0

/-- Holds when `a` does not have to move past `b`: comparator result `<= 0`. -/
def scoreLe (a b : Score) : Bool := decide (sortCompare a b ≤ 0)

/-- Insert `a` in front of the first element it is `le`-before
(stable insertion step of the sort model). -/
def orderedInsertB (le : Score → Score → Bool) (a : Score) : List Score → List Score
  | [] => [a]
  | b :: l => if le a b then a :: b :: l else b :: orderedInsertB le a l

/-- Model of `scores.sort((a, b) => a.time - b.time)`: a stable
comparator sort (insertion sort) under `scoreLe`. -/
def sortScores (l : List Score) : List Score := l.foldr (orderedInsertB scoreLe) []

/-- The sort key of an entry under the JS comparator on non-NaN times. -/
def jkey (s : Score) : Int := s.time.toNum

/-- Sorted ascending by the `time` field (with the JS coercion
`null` = 0 for persisted non-numeric times). -/
def sortedByTime (l : List Score) : Prop := l.Pairwise fun a b => jkey a ≤ jkey b

/-- The value of the request's `time` field: a JSON integer, a nonempty
string that `parseInt` reads as an integer, or a nonempty string on which
`parseInt` yields `NaN` (e.g. `"abc"`). -/
inductive TimeField where
  | intVal (n : Int)
  | strNum (n : Int)
  | strNaN
deriving DecidableEq

/-- JS truthiness of the `time` field (`0` and `""` are falsy; the string
cases here are nonempty strings, hence truthy). -/
def TimeField.truthy : TimeField → Bool
  | .intVal n => n != 0
  | .strNum _ => true
  | .strNaN => true

/-- The value of `parseInt(time)`: an integer or `NaN`. -/
def TimeField.parseIntJS : TimeField → JTime
  | .intVal n => .num n
  | .strNum n => .num n
  | .strNaN => .nan

/-- The check `sanitizedTime < 3000 || sanitizedTime > 600000`
(both comparisons are `false` on `NaN`). -/
def timeOutOfRange (t : JTime) : Bool := t.ltInt 3000 || t.gtInt 600000

/-- One entry of the `gameSessions` Map. -/
structure Session where
  startTime : Int
  signature : String
  interactions : Nat
  lastInteraction : Option Int
  submitted : Bool
deriving DecidableEq

/-- The `gameSessions` Map, as an association list keyed by token. -/
abbrev Registry := List (String × Session)

/-- Sets `session.submitted = true` for the session stored under `t`. -/
def markSubmitted (r : Registry) (t : String) : Registry :=
  r.map fun p => if p.1 = t then (p.1, { p.2 with submitted := true }) else p

/-- The call `gameSessions.delete(token)`. -/
def deleteToken (r : Registry) (t : String) : Registry :=
  r.filter fun p => p.1 != t

/-- JS truthiness of the request's `token` field. -/
def tokenTruthy : Option String → Bool
  | some t => t != ""
  | none => false

/-- Lines 152-171 of the submit handler: compute `validSession` and apply
the `session.submitted = true` mutation when the session validates. -/
def validateSession (sessions : Registry) (token : Option String)
    (sanitizedTime : JTime) (now : Int) : Bool × Registry :=
  if tokenTruthy token then
    match sessions.lookup (token.getD "") with
    | some session =>
      if session.submitted then (false, sessions)
      else
        let sessionDuration := now - session.startTime
        if sanitizedTime.leInt (sessionDuration + 2000) then
          if 3 ≤ session.interactions then (true, markSubmitted sessions (token.getD ""))
          else (false, sessions)
        else (false, sessions)
    | none => (false, sessions)
  else (false, sessions)

/-- The periodic cleanup (`setInterval` body): delete every session with
`now - session.startTime > 30 * 60 * 1000`. -/
def sweepSessions (sessions : Registry) (now : Int) : Registry :=
  sessions.filter fun p => !(decide ((30 : Int) * 60 * 1000 < now - p.2.startTime))

/-- What the persisted `scores.json` document parses to:
`arr l` is an array of entries; `falsy` is a document whose parse is falsy
(`null`, `false`, `0`, `""`) so that `|| []` substitutes `[]`; `truthyNonArr`
parses to a truthy non-array value (later array operations throw);
`invalid` makes `JSON.parse` itself throw. -/
inductive JDoc where
  | arr (l : List Score)
  | falsy
  | truthyNonArr
  | invalid
deriving DecidableEq

/-- The load `JSON.parse(fs.readFileSync(...)) || []`, with `none` for the cases in
which the read-and-use pipeline throws (parse error, or the parsed value is
a truthy non-array on which `sort` / `push` throws). -/
def loadScores : JDoc → Option (List Score)
  | .arr l => some l
  | .falsy => some []
  | .truthyNonArr => none
  | .invalid => none

/-- Serialization of an entry by `JSON.stringify`: a `NaN` time becomes `null`. -/
def persistScore (s : Score) : Score :=
  { s with time := match s.time with | .nan => .null | t => t }

/-- Writing the kept entries back to `scores.json`. -/
def saveScores (l : List Score) : JDoc := .arr (l.map persistScore)

/-- The GET /scores handler body: parse-or-default, sort, top 50;
`error` is the caught-exception 500 response. -/
def listScores (doc : JDoc) : Except Unit (List Score) :=
  match loadScores doc with
  | none => .error ()
  | some scores => .ok ((sortScores scores).take 50)

/-- The whole server state the modelled handlers touch. -/
structure ServerState where
  doc : JDoc
  sessions : Registry
deriving DecidableEq

/-- GET /scores as a state transformer: it reads the document and never
writes it. -/
def getScoresHandler (st : ServerState) : ServerState × Except Unit (List Score) :=
  (st, listScores st.doc)

/-- Parsed body of a POST /scores request (`sig` is destructured by the
handler but never used). -/
structure SubmitReq where
  name : String
  cinema : String
  email : Option String
  time : TimeField
  token : Option String
  sig : Option String
  mobile : JVal
deriving DecidableEq

/-- Response of the submit handler: the two 400 validation responses, the
caught-exception 500 response, and the success payload `{rank, score}`. -/
inductive SubmitOutcome where
  | missingFields
  | invalidTime
  | storageError
  | ok (rank : Nat) (score : Score)
deriving DecidableEq

/-- The rank `scores.findIndex(s => s.id === newScore.id) + 1`; `findIndex` returns
`-1` when absent so the rank degenerates to `0`. -/
def rankOf (kept : List Score) (newId : String) : Nat :=
  match kept.findIdx? (fun s => s.id == newId) with
  | some i => i + 1
  | none => 0

/-- The `newScore` object built by the submit handler: sanitized fields
(trim + length cap, the email also truthiness-tested), the parsed time,
the server timestamp, the anti-cheat verdict, and the strict mobile flag.
Sanitization is pure, so it is folded into this constructor. -/
def mkNewScore (req : SubmitReq) (now : Int) (freshId : String) (validSession : Bool) :
    Score :=
  { id := freshId
    name := jsSlice (jsTrim req.name) 50
    cinema := jsSlice (jsTrim req.cinema) 100
    email := match req.email with
      | some e => if e = "" then none else some (jsSlice (jsTrim e) 100)
      | none => none
    time := req.time.parseIntJS
    date := now
    verified := validSession
    mobile := mobileFlag req.mobile }

/-- The POST /scores handler body. `now` stands for `Date.now()` and
`freshId` for the generated random id. Field validation and the time bound
return 400 before any storage access; session validation runs next (it may
set `submitted`), then the document is loaded (a throwing load is the
caught 500, after which the token is NOT deleted); on the success path the
entry is pushed, the array sorted and truncated to 500, saved, ranked, and
the token deleted. -/
def submitScore (st : ServerState) (req : SubmitReq) (now : Int) (freshId : String) :
    ServerState × SubmitOutcome :=
  if req.name = "" ∨ req.cinema = "" ∨ req.time.truthy = false then
    (st, .missingFields)
  else if timeOutOfRange req.time.parseIntJS then (st, .invalidTime)
  else
    let vs := validateSession st.sessions req.token req.time.parseIntJS now
    match loadScores st.doc with
    | none => ({ st with sessions := vs.2 }, .storageError)
    | some scores =>
      let newScore := mkNewScore req now freshId vs.1
      let kept := (sortScores (scores ++ [newScore])).take 500
      let sessions2 :=
        if tokenTruthy req.token then deleteToken vs.2 (req.token.getD "")
        else vs.2
      ({ doc := saveScores kept, sessions := sessions2 }, .ok (rankOf kept freshId) newScore)

/-- One submit request together with its ambient `Date.now()` and id. -/
structure SubmitInput where
  req : SubmitReq
  now : Int
  freshId : String

/-- State transition of one submit request. -/
def stepSubmit (st : ServerState) (i : SubmitInput) : ServerState :=
  (submitScore st i.req i.now i.freshId).1

/-- Run a sequence of submit requests. -/
def runSubmits (st : ServerState) (l : List SubmitInput) : ServerState :=
  l.foldl stepSubmit st

/-- Server start state: `scores.json` initialized to `[]`, no sessions. -/
def initState : ServerState := { doc := .arr [], sessions := [] }

/-- From the spec's words: a persisted document that is a well-formed
representation of a score collection, i.e. an array of entries. -/
def wellFormedDoc (d : JDoc) : Prop := ∃ l, d = JDoc.arr l

/-- The ranking invariant claimed of the persisted collection: every
entry's time is numeric, the list is sorted ascending by time, and it has
at most 500 entries. -/
def GoodDoc (l : List Score) : Prop :=
  (∀ x ∈ l, ∃ m, x.time = JTime.num m) ∧ sortedByTime l ∧ l.length ≤ 500

/-- A plain stored entry used in concrete instantiations. -/
def sampleScore : Score :=
  { id := "s0", name := "n", cinema := "c", email := none,
    time := JTime.num 3000, date := 0, verified := false, mobile := false }

/-- A plain valid submit request (numeric 4000 ms time, no token). -/
def reqBig : SubmitReq :=
  { name := "a", cinema := "b", email := none, time := .intVal 4000,
    token := none, sig := none, mobile := .jundef }

/-- A submit request whose `time` is a non-numeric string such as `"abc"`:
present and truthy, but `parseInt` yields `NaN`. -/
def reqNaN : SubmitReq :=
  { name := "a", cinema := "b", email := none, time := .strNaN,
    token := none, sig := none, mobile := .jundef }

/-- First insertion of a two-step run: a normal 5000 ms score. -/
def cexInput1 : SubmitInput :=
  { req := { name := "a", cinema := "b", email := none, time := .intVal 5000,
             token := none, sig := none, mobile := .jundef }
    now := 0
    freshId := "x1" }

/-- Second insertion of the two-step run: the `reqNaN` request. -/
def cexInput2 : SubmitInput := { req := reqNaN, now := 1, freshId := "x2" }

/-! ## Lemmas about the sort model -/

theorem orderedInsertB_perm (le : Score → Score → Bool) (a : Score) (l : List Score) :
    List.Perm (orderedInsertB le a l) (a :: l) := by
  induction l with
  | nil => simp [orderedInsertB]
  | cons b t ih =>
    by_cases h : le a b = true
    · simp [orderedInsertB, h]
    · simp only [orderedInsertB, h]
      rw [if_neg (by simp [h])]
      exact (List.Perm.cons b ih).trans (List.Perm.swap a b t)

theorem sortScores_perm (l : List Score) : List.Perm (sortScores l) l := by
  induction l with
  | nil => simp [sortScores]
  | cons a t ih =>
    exact (orderedInsertB_perm scoreLe a (sortScores t)).trans (List.Perm.cons a ih)

theorem length_sortScores (l : List Score) : (sortScores l).length = l.length :=
  (sortScores_perm l).length_eq

theorem mem_sortScores {x : Score} {l : List Score} : x ∈ sortScores l ↔ x ∈ l :=
  (sortScores_perm l).mem_iff

theorem scoreLe_eq_key {a b : Score} (ha : a.time ≠ JTime.nan) (hb : b.time ≠ JTime.nan) :
    scoreLe a b = decide (jkey a ≤ jkey b) := by
  have hcmp : sortCompare a b = jkey a - jkey b := by
    unfold sortCompare jsub jkey
    cases hA : a.time <;> cases hB : b.time <;> simp_all [JTime.toNum]
  unfold scoreLe
  rw [hcmp]
  exact decide_eq_decide.mpr sub_nonpos

theorem pairwise_orderedInsertB {a : Score} {l : List Score}
    (ha : a.time ≠ JTime.nan) (hl : ∀ x ∈ l, x.time ≠ JTime.nan)
    (h : l.Pairwise fun x y => jkey x ≤ jkey y) :
    (orderedInsertB scoreLe a l).Pairwise fun x y => jkey x ≤ jkey y := by
  induction l with
  | nil => simp [orderedInsertB]
  | cons b t ih =>
    have hb : b.time ≠ JTime.nan := hl b (by simp)
    have ht : ∀ x ∈ t, x.time ≠ JTime.nan := fun x hx => hl x (by simp [hx])
    rw [List.pairwise_cons] at h
    by_cases hab : scoreLe a b = true
    · have hkey : jkey a ≤ jkey b := by
        rw [scoreLe_eq_key ha hb] at hab
        exact of_decide_eq_true hab
      simp only [orderedInsertB, hab, if_true]
      refine List.pairwise_cons.mpr ⟨?_, List.pairwise_cons.mpr ⟨h.1, h.2⟩⟩
      intro x hx
      rcases List.mem_cons.mp hx with rfl | hx
      · exact hkey
      · exact le_trans hkey (h.1 x hx)
    · have hkey : jkey b ≤ jkey a := by
        rw [scoreLe_eq_key ha hb] at hab
        have h2 : ¬ jkey a ≤ jkey b := by simpa using hab
        omega
      simp only [orderedInsertB, hab]
      rw [if_neg (by simp [hab])]
      refine List.pairwise_cons.mpr ⟨?_, ih ht h.2⟩
      intro x hx
      rcases List.mem_cons.mp ((orderedInsertB_perm scoreLe a t).mem_iff.mp hx) with rfl | hmem
      · exact hkey
      · exact h.1 x hmem

theorem sortedByTime_sortScores {l : List Score} (hl : ∀ x ∈ l, x.time ≠ JTime.nan) :
    sortedByTime (sortScores l) := by
  induction l with
  | nil => simp [sortScores, sortedByTime]
  | cons a t ih =>
    have ha : a.time ≠ JTime.nan := hl a (by simp)
    have ht : ∀ x ∈ t, x.time ≠ JTime.nan := fun x hx => hl x (by simp [hx])
    have hs : ∀ x ∈ sortScores t, x.time ≠ JTime.nan := fun x hx =>
      ht x (mem_sortScores.mp hx)
    exact pairwise_orderedInsertB ha hs (ih ht)

theorem orderedInsertB_append_single (le : Score → Score → Bool) {x e : Score}
    (s : List Score) (h : le x e = true) :
    orderedInsertB le x (s ++ [e]) = orderedInsertB le x s ++ [e] := by
  induction s with
  | nil => simp [orderedInsertB, h]
  | cons b t ih =>
    by_cases hb : le x b = true
    · simp [orderedInsertB, hb]
    · simp only [List.cons_append, orderedInsertB, hb]
      rw [if_neg (by simp [hb]), if_neg (by simp [hb])]
      rw [show t.append [e] = t ++ [e] from rfl, ih]
      simp

theorem sortScores_append_largest {l : List Score} {e : Score}
    (h : ∀ x ∈ l, scoreLe x e = true) :
    sortScores (l ++ [e]) = sortScores l ++ [e] := by
  induction l with
  | nil => simp [sortScores, orderedInsertB]
  | cons a t ih =>
    have ha : scoreLe a e = true := h a (by simp)
    have ht : ∀ x ∈ t, scoreLe x e = true := fun x hx => h x (by simp [hx])
    show orderedInsertB scoreLe a (sortScores (t ++ [e]))
        = orderedInsertB scoreLe a (sortScores t) ++ [e]
    rw [ih ht, orderedInsertB_append_single scoreLe _ ha]

/-! ## Lemmas about persistence and the registry -/

theorem persistScore_eq_self {s : Score} (h : s.time ≠ JTime.nan) : persistScore s = s := by
  obtain ⟨i, nm, c, em, t, d, v, m⟩ := s
  cases t with
  | num n => rfl
  | null => rfl
  | nan => exact absurd rfl h

theorem persistScore_id (s : Score) : (persistScore s).id = s.id := rfl

theorem map_persistScore_eq_self {l : List Score} (h : ∀ x ∈ l, x.time ≠ JTime.nan) :
    l.map persistScore = l := by
  induction l with
  | nil => rfl
  | cons a t ih =>
    simp only [List.map_cons, ih fun x hx => h x (by simp [hx]),
      persistScore_eq_self (h a (by simp))]

theorem submitScore_ok_eq {st : ServerState} {req : SubmitReq} {now : Int} {freshId : String}
    {scores : List Score}
    (hload : loadScores st.doc = some scores)
    (hname : ¬ req.name = "") (hcinema : ¬ req.cinema = "")
    (htime : req.time.truthy = true)
    (hrange : timeOutOfRange req.time.parseIntJS = false) :
    submitScore st req now freshId =
      ({ doc := saveScores ((sortScores (scores ++
            [mkNewScore req now freshId
              (validateSession st.sessions req.token req.time.parseIntJS now).1])).take 500)
         sessions :=
           if tokenTruthy req.token then
             deleteToken (validateSession st.sessions req.token req.time.parseIntJS now).2
               (req.token.getD "")
           else (validateSession st.sessions req.token req.time.parseIntJS now).2 },
       .ok (rankOf ((sortScores (scores ++
              [mkNewScore req now freshId
                (validateSession st.sessions req.token req.time.parseIntJS now).1])).take 500)
              freshId)
          (mkNewScore req now freshId
            (validateSession st.sessions req.token req.time.parseIntJS now).1)) := by
  unfold submitScore
  rw [if_neg (by simp [hname, hcinema, htime]), if_neg (by simp [hrange]), hload]

theorem lookup_deleteToken (r : Registry) (t : String) :
    (deleteToken r t).lookup t = none := by
  induction r with
  | nil => rfl
  | cons p r ih =>
    obtain ⟨k, v⟩ := p
    by_cases h : k = t
    · simpa [deleteToken, List.filter_cons, h] using ih
    · have hne : (t == k) = false := beq_eq_false_iff_ne.mpr (Ne.symm h)
      simpa [deleteToken, List.filter_cons, h, List.lookup, hne] using ih

theorem mobileFlag_iff (v : JVal) : mobileFlag v = true ↔ v = JVal.jbool true := by
  cases v with
  | jbool b => cases b <;> simp [mobileFlag]
  | jstr s => simp [mobileFlag]
  | jnum n => simp [mobileFlag]
  | jundef => simp [mobileFlag]
  | jnull => simp [mobileFlag]

theorem parseIntJS_leInt_iff (tf : TimeField) (c : Int) :
    (tf.parseIntJS.leInt c = true) ↔ ∃ n, tf.parseIntJS = JTime.num n ∧ n ≤ c := by
  cases tf <;> simp [TimeField.parseIntJS, JTime.leInt]

theorem validateSession_true_iff (sessions : Registry) (token : Option String)
    (tm : JTime) (now : Int) :
    (validateSession sessions token tm now).1 = true ↔
      ∃ t s, token = some t ∧ ¬ t = "" ∧ sessions.lookup t = some s ∧
        s.submitted = false ∧ tm.leInt (now - s.startTime + 2000) = true ∧
        3 ≤ s.interactions := by
  unfold validateSession
  cases token with
  | none => simp [tokenTruthy]
  | some t =>
    by_cases ht : t = ""
    · subst ht
      simp [tokenTruthy]
    · have htt : tokenTruthy (some t) = true := by simp [tokenTruthy, ht]
      rw [if_pos htt]
      simp only [Option.getD_some]
      cases hlook : sessions.lookup t with
      | none => simp [ht, hlook]
      | some s =>
        cases hsub : s.submitted with
        | true => simp [ht, hlook, hsub]
        | false =>
          by_cases hle : tm.leInt (now - s.startTime + 2000) = true
          · by_cases hint : 3 ≤ s.interactions
            · simp [ht, hlook, hsub, hle, hint]
            · simp [ht, hlook, hsub, hle, hint]
          · simp [ht, hlook, hsub, hle]

theorem stepSubmit_preserves_GoodDoc {st : ServerState} {i : SubmitInput}
    (h : ∃ l, st.doc = JDoc.arr l ∧ GoodDoc l)
    (hnum : ∃ n, i.req.time.parseIntJS = JTime.num n) :
    ∃ l, (stepSubmit st i).doc = JDoc.arr l ∧ GoodDoc l := by
  obtain ⟨l, hdoc, hla, hls, hll⟩ := h
  obtain ⟨n, hn⟩ := hnum
  unfold stepSubmit submitScore
  by_cases hv : i.req.name = "" ∨ i.req.cinema = "" ∨ i.req.time.truthy = false
  · rw [if_pos hv]
    exact ⟨l, hdoc, hla, hls, hll⟩
  · rw [if_neg hv]
    by_cases hr : timeOutOfRange i.req.time.parseIntJS = true
    · rw [if_pos hr]
      exact ⟨l, hdoc, hla, hls, hll⟩
    · rw [if_neg hr, show loadScores st.doc = some l by rw [hdoc]; rfl]
      set e := mkNewScore i.req i.now i.freshId
        (validateSession st.sessions i.req.token i.req.time.parseIntJS i.now).1 with he
      set kept := (sortScores (l ++ [e])).take 500 with hk
      have hetime : e.time = JTime.num n := hn
      have hallnum : ∀ x ∈ l ++ [e], ∃ m, x.time = JTime.num m := by
        intro x hx
        rcases List.mem_append.mp hx with hx | hx
        · exact hla x hx
        · rw [List.mem_singleton.mp hx]
          exact ⟨n, hetime⟩
      have hnanfree : ∀ x ∈ l ++ [e], x.time ≠ JTime.nan := by
        intro x hx hc
        obtain ⟨m, hm⟩ := hallnum x hx
        rw [hm] at hc
        cases hc
      have hmemkept : ∀ x ∈ kept, x ∈ l ++ [e] := by
        intro x hx
        exact mem_sortScores.mp ((List.take_sublist 500 _).mem hx)
      have hkeptnan : ∀ x ∈ kept, x.time ≠ JTime.nan := fun x hx =>
        hnanfree x (hmemkept x hx)
      refine ⟨kept, ?_, fun x hx => hallnum x (hmemkept x hx), ?_, ?_⟩
      · show saveScores kept = JDoc.arr kept
        unfold saveScores
        rw [map_persistScore_eq_self hkeptnan]
      · have hp := sortedByTime_sortScores hnanfree
        unfold sortedByTime at hp ⊢
        exact hp.sublist (List.take_sublist 500 _)
      · rw [hk, List.length_take]
        exact min_le_left _ _

theorem runSubmits_GoodDoc (pre : List SubmitInput) :
    ∀ st : ServerState, (∃ l, st.doc = JDoc.arr l ∧ GoodDoc l) →
      (∀ i ∈ pre, ∃ n, i.req.time.parseIntJS = JTime.num n) →
      ∃ l, (runSubmits st pre).doc = JDoc.arr l ∧ GoodDoc l := by
  induction pre with
  | nil => exact fun st h _ => h
  | cons i t ih =>
    intro st h hnum
    exact ih (stepSubmit st i) (stepSubmit_preserves_GoodDoc h (hnum i (by simp)))
      (fun j hj => hnum j (by simp [hj]))

/-! ## Claims -/

/-- C7: after a sweep at instant `now`, a session is present in the
registry iff it was present before and its age `now - startTime` is at
most 30 minutes: sessions strictly older are deleted regardless of their
`submitted` state, and all others are retained unchanged. -/
theorem c7_sweep_expiry (sessions : Registry) (now : Int) (t : String) (s : Session) :
    (t, s) ∈ sweepSessions sessions now ↔
      ((t, s) ∈ sessions ∧ now - s.startTime ≤ 30 * 60 * 1000) := by
  simp [sweepSessions, List.mem_filter, not_lt]

/-- C6 is refuted: the persisted document `null` (valid JSON, but not a
well-formed representation of a score collection; modelled by
`JDoc.falsy`) makes list-scores return a SUCCESSFUL EMPTY list instead of
a storage-error failure. -/
theorem c6_counterexample :
    listScores JDoc.falsy = Except.ok [] ∧ ¬ wellFormedDoc JDoc.falsy := by
  refine ⟨rfl, ?_⟩
  rintro ⟨l, h⟩
  cases h

/-- C6 (amended): list-scores fails with a storage error exactly when the
persisted document fails JSON parsing or parses to a truthy non-array
value; a document parsing to a falsy value (`null`, `false`, `0`, `""`)
is treated as the legitimately-empty collection and yields a successful
empty list; an array document yields its sorted top 50. -/
theorem c6_amended_characterization :
    (∀ d : JDoc, listScores d = Except.error () ↔
        (d = JDoc.invalid ∨ d = JDoc.truthyNonArr)) ∧
    listScores JDoc.falsy = Except.ok [] ∧
    (∀ l, listScores (JDoc.arr l) = Except.ok ((sortScores l).take 50)) := by
  refine ⟨?_, rfl, fun l => rfl⟩
  intro d
  cases d <;> simp [listScores, loadScores]

/-- C10: for every stored submission, the entry's `mobile` flag is `true`
iff the request body's `mobile` field is exactly the boolean `true`
(strict `===`); the string `"true"`, numbers, `null` and an absent field
all yield `false`. -/
theorem c10_mobile_strict (st : ServerState) (req : SubmitReq) (now : Int)
    (freshId : String) (scores : List Score)
    (hload : loadScores st.doc = some scores)
    (hname : ¬ req.name = "") (hcinema : ¬ req.cinema = "")
    (htime : req.time.truthy = true)
    (hrange : timeOutOfRange req.time.parseIntJS = false) :
    ∃ r e, (submitScore st req now freshId).2 = SubmitOutcome.ok r e ∧
      (e.mobile = true ↔ req.mobile = JVal.jbool true) := by
  rw [submitScore_ok_eq hload hname hcinema htime hrange]
  exact ⟨_, _, rfl, mobileFlag_iff req.mobile⟩

/-- Witness for C10 at a concrete request whose `mobile` field is the
string `"true"`. -/
theorem c10_witness :
    ∃ r e, (submitScore initState
        { reqBig with mobile := JVal.jstr "true" } 0 "w10").2 = SubmitOutcome.ok r e ∧
      (e.mobile = true ↔ ({ reqBig with mobile := JVal.jstr "true" } : SubmitReq).mobile
          = JVal.jbool true) :=
  c10_mobile_strict initState _ 0 "w10" [] rfl (by decide) (by decide) (by decide) (by decide)

/-- C2: for every submission that passes field validation (against a
loadable document), the stored entry's `verified` flag is `true` iff a
(truthy) token was supplied, the registry holds a not-yet-submitted
session under it, the parsed claimed time is a number at most
`(now - startTime) + 2000`, and the session has at least 3 interactions;
in every other case `verified` is `false`. -/
theorem c2_verified_iff (st : ServerState) (req : SubmitReq) (now : Int)
    (freshId : String) (scores : List Score)
    (hload : loadScores st.doc = some scores)
    (hname : ¬ req.name = "") (hcinema : ¬ req.cinema = "")
    (htime : req.time.truthy = true)
    (hrange : timeOutOfRange req.time.parseIntJS = false) :
    ∃ r e, (submitScore st req now freshId).2 = SubmitOutcome.ok r e ∧
      (e.verified = true ↔
        ∃ t s n, req.token = some t ∧ ¬ t = "" ∧ st.sessions.lookup t = some s ∧
          s.submitted = false ∧ req.time.parseIntJS = JTime.num n ∧
          n ≤ (now - s.startTime) + 2000 ∧ 3 ≤ s.interactions) := by
  rw [submitScore_ok_eq hload hname hcinema htime hrange]
  refine ⟨_, _, rfl, ?_⟩
  show (validateSession st.sessions req.token req.time.parseIntJS now).1 = true ↔ _
  rw [validateSession_true_iff]
  constructor
  · rintro ⟨t, s, h1, h2, h3, h4, h5, h6⟩
    obtain ⟨n, hn, hnle⟩ := (parseIntJS_leInt_iff req.time _).mp h5
    exact ⟨t, s, n, h1, h2, h3, h4, hn, hnle, h6⟩
  · rintro ⟨t, s, n, h1, h2, h3, h4, hn, hnle, h6⟩
    exact ⟨t, s, h1, h2, h3, h4, (parseIntJS_leInt_iff req.time _).mpr ⟨n, hn, hnle⟩, h6⟩

/-- Witness for C2 at a concrete request with a live session (5
interactions, plausible time): the iff is instantiated with the token
`"tok"`. -/
theorem c2_witness :
    ∃ r e, (submitScore
        { doc := JDoc.arr []
          sessions := [("tok", { startTime := 0, signature := "sg", interactions := 5,
                                 lastInteraction := none, submitted := false })] }
        { reqBig with time := .intVal 9500, token := some "tok" } 10000 "w2").2
        = SubmitOutcome.ok r e ∧
      (e.verified = true ↔
        ∃ t s n, ({ reqBig with time := .intVal 9500, token := some "tok" } : SubmitReq).token
              = some t ∧ ¬ t = "" ∧
            (([("tok", { startTime := 0, signature := "sg", interactions := 5,
                         lastInteraction := none, submitted := false })] : Registry).lookup t
              = some s) ∧
          s.submitted = false ∧
          ({ reqBig with time := .intVal 9500, token := some "tok" } : SubmitReq).time.parseIntJS
              = JTime.num n ∧
          n ≤ ((10000 : Int) - s.startTime) + 2000 ∧ 3 ≤ s.interactions) :=
  c2_verified_iff _ _ 10000 "w2" [] rfl (by decide) (by decide) (by decide) (by decide)

/-- C5: for every submission that passes field validation (against a
loadable document), anti-cheat evaluation never causes a rejection: the
outcome is success with the new entry appended (then sorted and truncated)
into the persisted collection, whatever the registry state; and entries
built for different verification outcomes differ only in the `verified`
flag. -/
theorem c5_anticheat_never_rejects (st : ServerState) (req : SubmitReq) (now : Int)
    (freshId : String) (scores : List Score)
    (hload : loadScores st.doc = some scores)
    (hname : ¬ req.name = "") (hcinema : ¬ req.cinema = "")
    (htime : req.time.truthy = true)
    (hrange : timeOutOfRange req.time.parseIntJS = false) :
    (∃ r e, (submitScore st req now freshId).2 = SubmitOutcome.ok r e ∧
       (submitScore st req now freshId).1.doc
         = saveScores ((sortScores (scores ++ [e])).take 500)) ∧
    (∀ v1 v2, mkNewScore req now freshId v1
        = { mkNewScore req now freshId v2 with verified := v1 }) := by
  rw [submitScore_ok_eq hload hname hcinema htime hrange]
  exact ⟨⟨_, _, rfl, rfl⟩, fun v1 v2 => rfl⟩

/-- Witness for C5 at a concrete valid request submitted with no token. -/
theorem c5_witness :
    (∃ r e, (submitScore initState reqBig 0 "w5").2 = SubmitOutcome.ok r e ∧
       (submitScore initState reqBig 0 "w5").1.doc
         = saveScores ((sortScores ([] ++ [e])).take 500)) ∧
    (∀ v1 v2, mkNewScore reqBig 0 "w5" v1
        = { mkNewScore reqBig 0 "w5" v2 with verified := v1 }) :=
  c5_anticheat_never_rejects initState reqBig 0 "w5" [] rfl (by decide) (by decide)
    (by decide) (by decide)

/-- C9: for every submission that supplies a (truthy) token and passes
field validation (against a loadable document), after the request the
registry holds no session for that token — the delete is unconditional,
whatever the session lookup or verification outcome was. -/
theorem c9_token_deleted (st : ServerState) (req : SubmitReq) (now : Int)
    (freshId : String) (scores : List Score) (t : String)
    (htok : req.token = some t) (hne : ¬ t = "")
    (hload : loadScores st.doc = some scores)
    (hname : ¬ req.name = "") (hcinema : ¬ req.cinema = "")
    (htime : req.time.truthy = true)
    (hrange : timeOutOfRange req.time.parseIntJS = false) :
    ((submitScore st req now freshId).1).sessions.lookup t = none := by
  rw [submitScore_ok_eq hload hname hcinema htime hrange]
  show (if tokenTruthy req.token then
          deleteToken (validateSession st.sessions req.token req.time.parseIntJS now).2
            (req.token.getD "")
        else (validateSession st.sessions req.token req.time.parseIntJS now).2).lookup t
      = none
  rw [htok, if_pos (by simp [tokenTruthy, hne]), Option.getD_some]
  exact lookup_deleteToken _ t

/-- Witness for C9: a token unknown to the (empty) registry is still
absent afterwards, and the request succeeds. -/
theorem c9_witness :
    ((submitScore initState { reqBig with token := some "tok" } 0 "w9").1).sessions.lookup "tok"
      = none :=
  c9_token_deleted initState _ 0 "w9" [] "tok" rfl (by decide) rfl (by decide) (by decide)
    (by decide) (by decide)

/-- C3 is contradicted by the code on a non-numeric `time` field (a code
bug: the handler's own comment demands the 3000–600000 ms bound): for the
request `reqNaN` (`time: "abc"`), `parseInt` yields `NaN`, both bound
comparisons are `false`, and the submission is ACCEPTED with rank 1 and
the persisted collection mutated, although the time field does not
satisfy `3000 ≤ time ≤ 600000`. -/
theorem c3_nan_time_accepted :
    (¬ ∃ n, reqNaN.time.parseIntJS = JTime.num n ∧ 3000 ≤ n ∧ n ≤ 600000) ∧
    (submitScore initState reqNaN 0 "id1").2
      = SubmitOutcome.ok 1
        { id := "id1", name := "a", cinema := "b", email := none,
          time := JTime.nan, date := 0, verified := false, mobile := false } ∧
    ¬ (submitScore initState reqNaN 0 "id1").1.doc = initState.doc := by
  refine ⟨?_, by decide, by decide⟩
  rintro ⟨n, hn, -⟩
  rw [show reqNaN.time.parseIntJS = JTime.nan from rfl] at hn
  cases hn

/-- C8: the list-scores handler does not mutate the server state (in
particular the persisted collection), so two consecutive calls with no
intervening insert return identical output; a successful output has at
most 50 entries and, for a stored array free of `NaN` times, is sorted
ascending by time. -/
theorem c8_list_idempotent (st : ServerState) :
    (getScoresHandler st).1 = st ∧
    (getScoresHandler ((getScoresHandler st).1)).2 = (getScoresHandler st).2 ∧
    (∀ l, (getScoresHandler st).2 = Except.ok l → l.length ≤ 50) ∧
    (∀ scores l, st.doc = JDoc.arr scores → (∀ x ∈ scores, x.time ≠ JTime.nan) →
       (getScoresHandler st).2 = Except.ok l → sortedByTime l) := by
  refine ⟨rfl, rfl, ?_, ?_⟩
  · intro l hl
    unfold getScoresHandler listScores at hl
    cases hd : st.doc
    case arr la =>
      rw [hd] at hl
      simp only [loadScores, Except.ok.injEq] at hl
      subst hl
      exact List.length_take_le _ _
    case falsy =>
      rw [hd] at hl
      simp only [loadScores, Except.ok.injEq] at hl
      subst hl
      exact List.length_take_le _ _
    case truthyNonArr =>
      rw [hd] at hl
      simp [loadScores] at hl
    case invalid =>
      rw [hd] at hl
      simp [loadScores] at hl
  · intro scores l hdoc hnan hl
    unfold getScoresHandler listScores at hl
    rw [hdoc] at hl
    simp only [loadScores, Except.ok.injEq] at hl
    subst hl
    have hp := sortedByTime_sortScores hnan
    unfold sortedByTime at hp ⊢
    exact hp.sublist (List.take_sublist _ _)

/-- Witness for C8 on a one-entry stored collection. -/
theorem c8_witness :
    (getScoresHandler { doc := JDoc.arr [sampleScore], sessions := [] }).1
        = { doc := JDoc.arr [sampleScore], sessions := [] } ∧
    ([sampleScore] : List Score).length ≤ 50 ∧ sortedByTime [sampleScore] :=
  ⟨(c8_list_idempotent { doc := JDoc.arr [sampleScore], sessions := [] }).1,
   (c8_list_idempotent { doc := JDoc.arr [sampleScore], sessions := [] }).2.2.1
     [sampleScore] rfl,
   (c8_list_idempotent { doc := JDoc.arr [sampleScore], sessions := [] }).2.2.2
     [sampleScore] [sampleScore] rfl (by decide) rfl⟩

/-- C4: on a full 500-entry collection, a valid submission whose numeric
time is strictly larger than every stored time is not retained: the new
entry is absent from the persisted collection afterwards, and the returned
result is success with the sentinel rank 0 (JS `findIndex` returning `-1`
plus 1). -/
theorem c4_eviction_rank_zero (st : ServerState) (req : SubmitReq) (now : Int)
    (freshId : String) (scores : List Score) (n : Int)
    (hload : loadScores st.doc = some scores)
    (hlen : scores.length = 500)
    (hname : ¬ req.name = "") (hcinema : ¬ req.cinema = "")
    (htime : req.time.truthy = true)
    (hparse : req.time.parseIntJS = JTime.num n)
    (hrange : timeOutOfRange req.time.parseIntJS = false)
    (hmax : ∀ x ∈ scores, ∃ m, x.time = JTime.num m ∧ m < n)
    (hfresh : ∀ x ∈ scores, ¬ x.id = freshId) :
    (∃ e, (submitScore st req now freshId).2 = SubmitOutcome.ok 0 e ∧ e.id = freshId) ∧
    (∀ l, (submitScore st req now freshId).1.doc = JDoc.arr l →
      ∀ x ∈ l, ¬ x.id = freshId) := by
  rw [submitScore_ok_eq hload hname hcinema htime hrange]
  set v := (validateSession st.sessions req.token req.time.parseIntJS now).1 with hv
  have hetime : (mkNewScore req now freshId v).time = JTime.num n := hparse
  have hle : ∀ x ∈ scores, scoreLe x (mkNewScore req now freshId v) = true := by
    intro x hx
    obtain ⟨m, hm, hmn⟩ := hmax x hx
    rw [scoreLe_eq_key (by rw [hm]; intro hc; cases hc) (by rw [hetime]; intro hc; cases hc)]
    unfold jkey
    rw [hm, hetime]
    simpa [JTime.toNum] using le_of_lt hmn
  have hsort : sortScores (scores ++ [mkNewScore req now freshId v])
      = sortScores scores ++ [mkNewScore req now freshId v] :=
    sortScores_append_largest hle
  have hlensort : (sortScores scores).length = 500 := by rw [length_sortScores, hlen]
  have hkept : (sortScores (scores ++ [mkNewScore req now freshId v])).take 500
      = sortScores scores := by
    rw [hsort, ← hlensort, List.take_left]
  have hids : ∀ x ∈ sortScores scores, ¬ x.id = freshId := fun x hx =>
    hfresh x (mem_sortScores.mp hx)
  have hrank : rankOf ((sortScores (scores ++ [mkNewScore req now freshId v])).take 500)
      freshId = 0 := by
    rw [hkept]
    unfold rankOf
    rw [List.findIdx?_eq_none_iff.mpr ?hnone]
    case hnone =>
      intro x hx
      simpa using hids x hx
  constructor
  · exact ⟨mkNewScore req now freshId v, by rw [show (Prod.snd _ : SubmitOutcome) = _ from rfl]; rw [hrank], rfl⟩
  · intro l hl x hx
    rw [show (Prod.fst _ : ServerState).doc = saveScores ((sortScores (scores ++
          [mkNewScore req now freshId v])).take 500) from rfl, hkept] at hl
    unfold saveScores at hl
    cases hl
    obtain ⟨y, hy, rfl⟩ := List.mem_map.mp hx
    rw [persistScore_id]
    exact hids y hy

/-- Witness for C4: a full collection of 500 entries at 3000 ms, and a
valid 4000 ms submission: rank 0, entry evicted. -/
theorem c4_witness :
    (∃ e, (submitScore { doc := JDoc.arr (List.replicate 500 sampleScore), sessions := [] }
        reqBig 0 "fresh").2 = SubmitOutcome.ok 0 e ∧ e.id = "fresh") ∧
    (∀ l, (submitScore { doc := JDoc.arr (List.replicate 500 sampleScore), sessions := [] }
        reqBig 0 "fresh").1.doc = JDoc.arr l → ∀ x ∈ l, ¬ x.id = "fresh") :=
  c4_eviction_rank_zero _ reqBig 0 "fresh" (List.replicate 500 sampleScore) 4000 rfl
    (by simp) (by decide) (by decide) (by decide) rfl (by decide)
    (fun x hx => by rw [List.eq_of_mem_replicate hx]; exact ⟨3000, rfl, by norm_num⟩)
    (fun x hx => by rw [List.eq_of_mem_replicate hx]; decide)

/-- C1 is refuted as stated: the two-insert run `[cexInput1, cexInput2]`
from the empty collection consists of two SUCCESSFUL insertions (ranks 1
and 2), yet afterwards the persisted collection holds times
`[5000, null]` (the second insert's NaN time persisted as `null`, which
coerces to 0), so it is not sorted ascending by time. -/
theorem c1_counterexample :
    (submitScore initState cexInput1.req cexInput1.now cexInput1.freshId).2
      = SubmitOutcome.ok 1
        { id := "x1", name := "a", cinema := "b", email := none,
          time := JTime.num 5000, date := 0, verified := false, mobile := false } ∧
    (submitScore (stepSubmit initState cexInput1) cexInput2.req cexInput2.now
        cexInput2.freshId).2
      = SubmitOutcome.ok 2
        { id := "x2", name := "a", cinema := "b", email := none,
          time := JTime.nan, date := 1, verified := false, mobile := false } ∧
    ∃ l, (runSubmits initState [cexInput1, cexInput2]).doc = JDoc.arr l ∧
      ¬ sortedByTime l := by
  refine ⟨by decide, by decide,
    ⟨[{ id := "x1", name := "a", cinema := "b", email := none,
        time := JTime.num 5000, date := 0, verified := false, mobile := false },
      { id := "x2", name := "a", cinema := "b", email := none,
        time := JTime.null, date := 1, verified := false, mobile := false }],
     by decide, ?_⟩⟩
  intro hs
  unfold sortedByTime at hs
  rw [List.pairwise_cons] at hs
  have h5 := hs.1
    { id := "x2", name := "a", cinema := "b", email := none,
      time := JTime.null, date := 1, verified := false, mobile := false }
    (by simp)
  norm_num [jkey, JTime.toNum] at h5

/-- C1 (amended): restricted to submissions whose `time` field parses to a
number (ruling out the NaN slip recorded at C3), the invariant holds:
starting from the empty collection, after every prefix of the run the
persisted document is an array of numeric-time entries sorted ascending by
time with at most 500 of them; and truncation keeps the lowest times:
every entry cut off by `.slice(0, 500)` has a time at least that of every
kept entry. -/
theorem c1_ranking_invariant_numeric :
    (∀ (inputs pre suf : List SubmitInput), inputs = pre ++ suf →
       (∀ i ∈ inputs, ∃ n, i.req.time.parseIntJS = JTime.num n) →
       ∃ l, (runSubmits initState pre).doc = JDoc.arr l ∧ GoodDoc l) ∧
    (∀ (l : List Score) (e : Score), (∀ x ∈ l ++ [e], x.time ≠ JTime.nan) →
       ∀ x ∈ (sortScores (l ++ [e])).take 500,
         ∀ y ∈ (sortScores (l ++ [e])).drop 500, jkey x ≤ jkey y) := by
  constructor
  · intro inputs pre suf heq hnum
    have hinit : GoodDoc [] :=
      ⟨fun x hx => absurd hx (List.not_mem_nil x), List.Pairwise.nil, by simp⟩
    refine runSubmits_GoodDoc pre initState ⟨[], rfl, hinit⟩ ?_
    intro i hi
    exact hnum i (by rw [heq]; exact List.mem_append_left _ hi)
  · intro l e hnan x hx y hy
    have hp := sortedByTime_sortScores hnan
    unfold sortedByTime at hp
    rw [← List.take_append_drop 500 (sortScores (l ++ [e]))] at hp
    exact (List.pairwise_append.mp hp).2.2 x hx y hy

/-- Witness for C1 (amended) on the one-insert run `[cexInput1]` and on a
singleton truncation instance. -/
theorem c1_witness :
    (∃ l, (runSubmits initState [cexInput1]).doc = JDoc.arr l ∧ GoodDoc l) ∧
    (∀ x ∈ (sortScores ([] ++ [sampleScore])).take 500,
       ∀ y ∈ (sortScores ([] ++ [sampleScore])).drop 500, jkey x ≤ jkey y) :=
  ⟨c1_ranking_invariant_numeric.1 [cexInput1] [cexInput1] [] rfl
     (fun i hi => by rw [List.mem_singleton.mp hi]; exact ⟨5000, rfl⟩),
   c1_ranking_invariant_numeric.2 [] sampleScore
     (fun x hx => by simp at hx; subst hx; decide)⟩

end PF
